import Mathlib

/-!
Verification development for the MathJIT expression evaluator.

The definitions below are a shallow embedding of the Rust sources:
`src/tokenizer.rs`, `src/ops.rs`, `src/parser.rs`, `src/eval/ast_interpret.rs`,
`src/eval/llvm.rs` and `src/eval/intrinsic/*.rs`.  Numeric values are modelled
as rationals; the transcendental operations (powf, sqrt, sin, cos and the pi
constant) are abstracted into a structure of operations, since the claims under
study only constrain them pointwise.  Panics and failed assertions are modelled
as `Except` errors carrying the panic message; recursion through user function
calls is bounded by an explicit fuel parameter, with exhaustion reported as a
distinguished `fuelOut` error.
-/

namespace MathJIT

/-- Token kind of `src/tokenizer.rs` (`MathToken`); every variant carries its
source offset. -/
inductive MathToken where
  | Add (pos : Nat)
  | Sub (pos : Nat)
  | Div (pos : Nat)
  | Mul (pos : Nat)
  | Open (pos : Nat)
  | Close (pos : Nat)
  | Exp (pos : Nat)
  | Num (pos : Nat) (val : ℚ)
  | Id (pos : Nat) (ch : Char)
  | Delim (pos : Nat)
  | Eq (pos : Nat)
  | Chain (pos : Nat)
  deriving DecidableEq, Repr

/-- Characters accepted by the numeric-lexeme scanner of the tokenizer
(`current.is_numeric() || current == '.'`, ASCII inputs). -/
def isNumChar (c : Char) : Bool :=
  c.isDigit || c == '.'

/-- Decimal digits to a natural number. -/
def digitsToNat (l : List Char) : Nat :=
  l.foldl (fun a c => a * 10 + (c.toNat - '0'.toNat)) 0

/-- Whether a lexeme of digits and dots is accepted by the float parser
(`num_buf.parse::<f64>()`): at least one digit and at most one dot. -/
def numValid (l : List Char) : Bool :=
  l.any Char.isDigit && Nat.ble (l.countP (fun c => c == '.')) 1

/-- Exact decimal value of a valid numeric lexeme. -/
def numValue (l : List Char) : ℚ :=
  let intPart := l.takeWhile (fun c => !(c == '.'))
  let fracPart := (l.dropWhile (fun c => !(c == '.'))).drop 1
  (digitsToNat intPart : ℚ) + (digitsToNat fracPart : ℚ) / (10 : ℚ) ^ fracPart.length

/-- The single-character tokens of `MathToken::try_new`, including one `Id`
token per letter. -/
def trivialToken (c : Char) (idx : Nat) : Option MathToken :=
  if c == '+' then some (.Add idx)
  else if c == '-' then some (.Sub idx)
  else if c == '*' then some (.Mul idx)
  else if c == '/' then some (.Div idx)
  else if c == '^' then some (.Exp idx)
  else if c == '(' then some (.Open idx)
  else if c == ')' then some (.Close idx)
  else if c == ',' then some (.Delim idx)
  else if c == '=' then some (.Eq idx)
  else if c == '&' then some (.Chain idx)
  else if c.isAlpha then some (.Id idx c)
  else none

/-- Whether the most recently emitted token is a `Num`; guards the implicit
multiplication insertion. -/
def isNumTok : Option MathToken → Bool
  | some (.Num _ _) => true
  | _ => false

/-- Main scanning loop of `MathToken::try_new`.  `acc` holds the emitted tokens
in reverse; `orig` is the length of the whole input, so the offset of the
current character is `orig` minus the remaining length.  When the current
character is an opening bracket and the last emitted token was a `Num`, a
synthetic `Mul` at the current offset is emitted before the `Open`. -/
def tokenizeGo (orig : Nat) : Nat → List Char → List MathToken → Except String (List MathToken)
  | _, [], acc => .ok acc.reverse
  | 0, _ :: _, _ => .error "out of fuel"
  | fuel + 1, c :: cs, acc =>
    let idx := orig - (c :: cs).length
    if c == ' ' then tokenizeGo orig fuel cs acc
    else
      let acc1 := if c == '(' && isNumTok acc.head? then MathToken.Mul idx :: acc else acc
      match trivialToken c idx with
      | some t => tokenizeGo orig fuel cs (t :: acc1)
      | none =>
        if isNumChar c then
          let lex := c :: cs.takeWhile isNumChar
          if numValid lex then
            tokenizeGo orig fuel (cs.dropWhile isNumChar) (MathToken.Num idx (numValue lex) :: acc1)
          else .error ("unexpected token: " ++ String.singleton c)
        else .error ("unexpected token: " ++ String.singleton c)

/-- `MathToken::try_new`: tokenize a whole input string. -/
def tokenize (s : String) : Except String (List MathToken) :=
  tokenizeGo s.length (s.length + 1) s.toList []

/-- The AST of `src/ops.rs` (`MathOp`). -/
inductive MathOp where
  | Add (lhs rhs : MathOp)
  | Sub (lhs rhs : MathOp)
  | Mul (lhs rhs : MathOp)
  | Div (lhs rhs : MathOp)
  | Exp (lhs rhs : MathOp)
  | Call (name : String) (args : List MathOp)
  | Neg (x : MathOp)
  | Arg (ch : Char)
  | Num (x : ℚ)
  deriving Repr

/-- A user function of `src/parser.rs` (`Function`). -/
structure Function where
  name : String
  args : List Char
  body : MathOp
  deriving Repr

/-- A parsed statement of `src/parser.rs` (`ParseOutput`). -/
inductive ParseOutput where
  | Body (op : MathOp)
  | Functions (funcs : List Function)
  deriving Repr

/-- Modelled from the spec: the arity prototypes (`proto().arg_count`) of the
standard intrinsics, consulted by `Parser::parse_primary_func_call`.  The
`proto` accessor is declared on the intrinsic trait but its implementations are
not part of the provided sources; the spec fixes the set as
`sqrt/1, sin/1, cos/1, pi/0, sum/3`. -/
def intrinsicArity : String → Option Nat
  | "sqrt" => some 1
  | "sin" => some 1
  | "cos" => some 1
  | "pi" => some 0
  | "sum" => some 3
  | _ => none

/-- Names of the standard intrinsics (`standard_intrinsics()` registry keys). -/
def isIntrinsicName (s : String) : Bool :=
  (intrinsicArity s).isSome

/-- Leading run of `Id` tokens and the remaining queue; used by
`parse_primary_func_call` to build a (possibly multi-character) call name. -/
def takeIdChars : List MathToken → List Char × List MathToken
  | .Id _ c :: rest =>
    let (l, r) := takeIdChars rest
    (c :: l, r)
  | toks => ([], toks)

/-- Bracket collection loop of `Parser::parse_primary`: pop tokens tracking
depth until the matching `Close`; the matching `Close` is dropped and inner
tokens are returned.  `none` means the queue ran out at positive depth. -/
def collectBracket : Nat → List MathToken → Option (List MathToken × List MathToken)
  | _, [] => none
  | depth, t :: rest =>
    match t with
    | .Close _ =>
      if depth = 1 then some ([], rest)
      else (collectBracket (depth - 1) rest).map (fun p => (t :: p.1, p.2))
    | .Open _ => (collectBracket (depth + 1) rest).map (fun p => (t :: p.1, p.2))
    | _ => (collectBracket depth rest).map (fun p => (t :: p.1, p.2))

/-- Formal-argument list loop of `Parser::parse_full_func`: consume `Id`
tokens separated by `Delim`, stopping (without consuming) at a `Close` after an
argument or when the next token is not an `Id`.  `none` mirrors the
`return Ok(None)` taken when an argument is followed by neither `Delim` nor
`Close`. -/
def parseFuncArgs : List MathToken → Option (List Char × List MathToken)
  | .Id _ a :: rest =>
    match rest with
    | .Delim _ :: rest2 => (parseFuncArgs rest2).map (fun p => (a :: p.1, p.2))
    | .Close _ :: _ => some ([a], rest)
    | _ => none
  | toks => some ([], toks)

mutual

/-- `Parser::parse_primary_func_call`: concatenate leading `Id` tokens into a
name, require `(`, parse comma separated arguments to `)`, and enforce the
intrinsic arity prototypes.  `some` in the first component is a successful
call parse; `none` mirrors `Ok(None)` (the caller restores its saved queue). -/
def parsePrimaryFuncCall : Nat → List MathToken → Except String (Option MathOp × List MathToken)
  | 0, _ => .error "out of fuel"
  | fuel + 1, toks =>
    let (nameChars, rest) := takeIdChars toks
    match rest with
    | .Open _ :: rest2 => do
      let (args, rest3) ← parseCallArgs fuel rest2
      let name := String.mk nameChars
      match intrinsicArity name with
      | some n =>
        if n ≠ args.length then
          .error ("incorrect argument count for " ++ name ++ " call")
        else
          pure (some (.Call name args), rest3)
      | none => pure (some (.Call name args), rest3)
    | _ => pure (none, rest)

/-- Argument loop of `parse_primary_func_call`: until a `Close`, parse an
expression and drop one following `Delim` if present. -/
def parseCallArgs : Nat → List MathToken → Except String (List MathOp × List MathToken)
  | 0, _ => .error "out of fuel"
  | fuel + 1, toks =>
    match toks with
    | .Close _ :: rest => pure ([], rest)
    | _ => do
      let (arg, rest) ← parseExpr fuel toks
      let rest1 := match rest with
        | .Delim _ :: r => r
        | _ => rest
      let (args, rest2) ← parseCallArgs fuel rest1
      pure (arg :: args, rest2)

/-- `Parser::parse_primary`: unary minus over a whole inner expression,
re-parsed bracket groups, numbers (with implicit multiplication when a number
is immediately followed by an opening bracket), and identifier forms (function
call, else a single `Arg`). -/
def parsePrimary : Nat → List MathToken → Except String (MathOp × List MathToken)
  | 0, _ => .error "out of fuel"
  | fuel + 1, toks =>
    match toks with
    | .Sub _ :: rest => do
      let (x, r) ← parseInnerFunc fuel rest
      pure (.Neg x, r)
    | .Open _ :: rest =>
      match collectBracket 1 rest with
      | none => .error "brackets not balanced"
      | some (inner, rest2) =>
        match rest2 with
        | .Close _ :: _ => .error "brackets not balanced"
        | _ => do
          let (op, _) ← parseInnerFunc fuel inner
          pure (op, rest2)
    | .Num _ x :: rest =>
      match rest with
      | .Open _ :: _ => do
        let (e, r) ← parsePrimary fuel rest
        pure (.Mul (.Num x) e, r)
      | _ => pure (.Num x, rest)
    | .Id _ c :: restAfterId => do
      let (res, r) ← parsePrimaryFuncCall fuel toks
      match res with
      | some callOp => pure (callOp, r)
      | none => pure (.Arg c, restAfterId)
    | _ => .error "expected number or open bracket"

/-- `Parser::parse_exp`: a primary followed by a left-folded loop of `^`. -/
def parseExp : Nat → List MathToken → Except String (MathOp × List MathToken)
  | 0, _ => .error "out of fuel"
  | fuel + 1, toks => do
    let (lhs, r) ← parsePrimary fuel toks
    parseExpLoop fuel lhs r

/-- Loop of `parse_exp`: while the next token is `^`, parse a primary and fold
into `Exp { lhs, rhs }` left to right. -/
def parseExpLoop : Nat → MathOp → List MathToken → Except String (MathOp × List MathToken)
  | 0, _, _ => .error "out of fuel"
  | fuel + 1, lhs, toks =>
    match toks with
    | .Exp _ :: rest => do
      let (rhs, r) ← parsePrimary fuel rest
      parseExpLoop fuel (.Exp lhs rhs) r
    | _ => pure (lhs, toks)

/-- `Parser::parse_term`: a leading `-` negates a whole term; otherwise an exp
level followed by a `*` and `/` loop. -/
def parseTerm : Nat → List MathToken → Except String (MathOp × List MathToken)
  | 0, _ => .error "out of fuel"
  | fuel + 1, toks =>
    match toks with
    | .Sub _ :: rest => do
      let (x, r) ← parseTerm fuel rest
      pure (.Neg x, r)
    | _ => do
      let (lhs, r) ← parseExp fuel toks
      parseTermLoop fuel lhs r

/-- Loop of `parse_term` over `*` and `/`. -/
def parseTermLoop : Nat → MathOp → List MathToken → Except String (MathOp × List MathToken)
  | 0, _, _ => .error "out of fuel"
  | fuel + 1, lhs, toks =>
    match toks with
    | .Mul _ :: rest => do
      let (rhs, r) ← parseExp fuel rest
      parseTermLoop fuel (.Mul lhs rhs) r
    | .Div _ :: rest => do
      let (rhs, r) ← parseExp fuel rest
      parseTermLoop fuel (.Div lhs rhs) r
    | _ => pure (lhs, toks)

/-- `Parser::parse_expr`: a leading `-` negates a whole expression; otherwise a
term followed by an `+` and `-` loop. -/
def parseExpr : Nat → List MathToken → Except String (MathOp × List MathToken)
  | 0, _ => .error "out of fuel"
  | fuel + 1, toks =>
    match toks with
    | .Sub _ :: rest => do
      let (x, r) ← parseExpr fuel rest
      pure (.Neg x, r)
    | _ => do
      let (lhs, r) ← parseTerm fuel toks
      parseExprLoop fuel lhs r

/-- Loop of `parse_expr` over `+` and `-`. -/
def parseExprLoop : Nat → MathOp → List MathToken → Except String (MathOp × List MathToken)
  | 0, _, _ => .error "out of fuel"
  | fuel + 1, lhs, toks =>
    match toks with
    | .Add _ :: rest => do
      let (rhs, r) ← parseTerm fuel rest
      parseExprLoop fuel (.Add lhs rhs) r
    | .Sub _ :: rest => do
      let (rhs, r) ← parseTerm fuel rest
      parseExprLoop fuel (.Sub lhs rhs) r
    | _ => pure (lhs, toks)

/-- `Parser::parse_inner_func`: reject an empty queue, then parse one
expression (leftover tokens are left for the caller). -/
def parseInnerFunc : Nat → List MathToken → Except String (MathOp × List MathToken)
  | 0, _ => .error "out of fuel"
  | fuel + 1, toks =>
    match toks with
    | [] => .error "no input provided"
    | _ => parseExpr fuel toks

end

/-- `Parser::parse_full_func`: a single leading `Id` as the definition name,
a parenthesised formal list, `=`, then an expression body.  `some` yields
`Functions([Function])` with the one-character name; `none` mirrors
`Ok(None)`, after which the caller restores its saved queue. -/
def parseFullFunc : Nat → List MathToken → Except String (Option ParseOutput × List MathToken)
  | 0, _ => .error "out of fuel"
  | fuel + 1, toks =>
    match toks with
    | .Id _ c :: rest1 =>
      match rest1 with
      | .Open _ :: rest =>
        match parseFuncArgs rest with
        | none => pure (none, rest)
        | some (args, rest2) =>
          match rest2 with
          | .Close _ :: rest4 =>
            match rest4 with
            | .Eq _ :: rest3 => do
              let (body, r) ← parseInnerFunc fuel rest3
              pure (some (.Functions [⟨c.toString, args, body⟩]), r)
            | _ => pure (none, rest4)
          | _ => pure (none, rest2)
      | _ => pure (none, rest1)
    | _ => pure (none, toks)

/-- `Parser::parse_expression_chain_single`: attempt a function definition,
and on `Ok(None)` restore the saved queue and parse an expression body. -/
def parseChainSingle : Nat → List MathToken → Except String (ParseOutput × List MathToken)
  | 0, _ => .error "out of fuel"
  | fuel + 1, toks => do
    let (res, r) ← parseFullFunc fuel toks
    match res with
    | some out => pure (out, r)
    | none => do
      let (op, r2) ← parseInnerFunc fuel toks
      pure (.Body op, r2)

/-- Chain loop of `Parser::parse`: while the next token is `&`, consume it and
parse another statement. -/
def parseChainLoop : Nat → List MathToken → Except String (List ParseOutput × List MathToken)
  | 0, _ => .error "out of fuel"
  | fuel + 1, toks =>
    match toks with
    | .Chain _ :: rest => do
      let (o, r) ← parseChainSingle fuel rest
      let (os, r2) ← parseChainLoop fuel r
      pure (o :: os, r2)
    | _ => pure ([], toks)

/-- `Parser::parse`: one statement, then the `&` chain loop.  The remaining
(unconsumed) token queue is returned alongside the outputs. -/
def parse : Nat → List MathToken → Except String (List ParseOutput × List MathToken)
  | 0, _ => .error "out of fuel"
  | fuel + 1, toks => do
    let (first, r) ← parseChainSingle fuel toks
    let (os, r2) ← parseChainLoop fuel r
    pure (first :: os, r2)

/-- Default parser fuel for a token list: generously larger than any possible
recursion depth or loop count on the list. -/
def parseFuel (toks : List MathToken) : Nat :=
  8 * toks.length + 64

/-- Tokenize and parse an input string, returning the statements and the
unconsumed tokens. -/
def parseProgram (input : String) : Except String (List ParseOutput × List MathToken) := do
  let toks ← tokenize input
  parse (parseFuel toks) toks

/-- Abstract interpretations of the floating-point operations that the claims
only constrain pointwise: `powf` and the `llvm.pow` intrinsic, `sqrt`, `sin`,
`cos` and the `pi` constant. -/
structure FOps where
  pow : ℚ → ℚ → ℚ
  sqrt : ℚ → ℚ
  sin : ℚ → ℚ
  cos : ℚ → ℚ
  pi : ℚ

/-- Evaluation failure: a Rust panic (failed assertion, unresolved name,
out-of-bounds index, unwrap) carrying its message, or fuel exhaustion of the
embedding. -/
inductive EvalErr where
  | panic (msg : String)
  | fuelOut
  deriving DecidableEq, Repr

/-- `Response` of `src/eval/mod.rs`: a numeric value for a `Body` statement or
`Ok` for installed definitions. -/
inductive Response where
  | Value (v : ℚ)
  | Ok
  deriving DecidableEq, Repr

mutual

/-- `AstInterpreter::eval_func` of `src/eval/ast_interpret.rs`.  In the user
call branch the `let Some(func) = ...` binding shadows the enclosing `func`
parameter, so the actual argument expressions are evaluated with the callee
(not the caller) as the function whose formal list resolves `Arg`
characters, while still reading the caller argument values. -/
def evalFunc (F : FOps) (env : List Function) :
    Nat → MathOp → Function → List ℚ → Except EvalErr ℚ
  | 0, _, _, _ => .error .fuelOut
  | fuel + 1, op, func, currentArgs =>
    match op with
    | .Add l r => do
      pure ((← evalFunc F env fuel l func currentArgs) + (← evalFunc F env fuel r func currentArgs))
    | .Sub l r => do
      pure ((← evalFunc F env fuel l func currentArgs) - (← evalFunc F env fuel r func currentArgs))
    | .Mul l r => do
      pure ((← evalFunc F env fuel l func currentArgs) * (← evalFunc F env fuel r func currentArgs))
    | .Div l r => do
      pure ((← evalFunc F env fuel l func currentArgs) / (← evalFunc F env fuel r func currentArgs))
    | .Exp l r => do
      pure (F.pow (← evalFunc F env fuel l func currentArgs) (← evalFunc F env fuel r func currentArgs))
    | .Num x => pure x
    | .Neg x => do
      pure (-(← evalFunc F env fuel x func currentArgs))
    | .Call name args =>
      match env.find? (fun x => x.name == name) with
      | some f2 => do
        let argv ← evalArgs F env fuel args f2 currentArgs
        evalFunc F env fuel f2.body f2 argv
      | none =>
        if isIntrinsicName name then do
          let argv ← evalArgs F env fuel args func currentArgs
          evalIntrinsic F env fuel name argv
        else .error (.panic "Could not find function")
    | .Arg n =>
      match func.args.findIdx? (fun a => a == n) with
      | some index =>
        match currentArgs.get? index with
        | some v => pure v
        | none => .error (.panic "Could not find argument")
      | none =>
        .error (.panic "Argument specified in function body was not passed in function call")

/-- Left-to-right evaluation of actual argument expressions
(`args.iter().map(...).collect::<Option<Vec<_>>>()`). -/
def evalArgs (F : FOps) (env : List Function) :
    Nat → List MathOp → Function → List ℚ → Except EvalErr (List ℚ)
  | 0, _, _, _ => .error .fuelOut
  | _ + 1, [], _, _ => pure []
  | fuel + 1, x :: xs, func, currentArgs => do
    let v ← evalFunc F env fuel x func currentArgs
    let vs ← evalArgs F env fuel xs func currentArgs
    pure (v :: vs)

/-- The interpreter implementations of the standard intrinsics
(`eval_interpreter` of `src/eval/intrinsic/{sqrt,trig,sum}.rs`), assertions
included as written: each arity assertion asserts that the argument count
differs from the declared arity, so it fails exactly on a correct call. -/
def evalIntrinsic (F : FOps) (env : List Function) :
    Nat → String → List ℚ → Except EvalErr ℚ
  | 0, _, _ => .error .fuelOut
  | fuel + 1, name, argv =>
    if name == "sqrt" then
      if argv.length = 1 then .error (.panic "too many arguments passed into sqrt function")
      else
        match argv.head? with
        | some a => pure (F.sqrt a)
        | none => .error (.panic "index out of bounds")
    else if name == "sin" then
      if argv.length = 1 then .error (.panic "too many arguments passed into sin function")
      else
        match argv.head? with
        | some a => pure (F.sin a)
        | none => .error (.panic "index out of bounds")
    else if name == "cos" then
      if argv.length = 1 then .error (.panic "too many arguments passed into cos function")
      else
        match argv.head? with
        | some a => pure (F.cos a)
        | none => .error (.panic "index out of bounds")
    else if name == "pi" then
      if argv.isEmpty then .error (.panic "too many arguments passed into pi function")
      else pure F.pi
    else if name == "sum" then
      if argv.length = 3 then .error (.panic "too many arguments passed into Sum function")
      else
        match argv.get? 0, argv.get? 1, argv.get? 2 with
        | some start, some stop, some step =>
          match env.getLast? with
          | none => .error (.panic "could not find last function for sum function")
          | some f =>
            if f.args.length = 1 then .error (.panic "last function takes too many argument")
            else sumLoop F env fuel f stop step start 0
        | _, _, _ => .error (.panic "index out of bounds")
    else .error (.panic "unknown intrinsic")

/-- The do-while loop of `Sum::eval_interpreter`: the summand is always
evaluated at the current counter once before the `i > stop` exit test. -/
def sumLoop (F : FOps) (env : List Function) :
    Nat → Function → ℚ → ℚ → ℚ → ℚ → Except EvalErr ℚ
  | 0, _, _, _, _, _ => .error .fuelOut
  | fuel + 1, f, stop, step, i, acc => do
    let v ← evalFunc F env fuel f.body f [i]
    let acc1 := acc + v
    let i1 := i + step
    if i1 > stop then pure acc1 else sumLoop F env fuel f stop step i1 acc1

end

/-- Replace the first function with the same name, else append
(`self.functions.iter_mut().find(...)` then `*item = func` or `push`); used
identically by `AstInterpreter::eval` and `Jit::eval`. -/
def installFunc : List Function → Function → List Function
  | [], f => [f]
  | g :: rest, f =>
    if g.name = f.name then f :: rest
    else g :: installFunc rest f

/-- Install a list of parsed definitions in order. -/
def installFuncs (env : List Function) (fs : List Function) : List Function :=
  fs.foldl installFunc env

/-- `AstInterpreter::eval` on one `ParseOutput`: a `Body` is evaluated under a
temporary anonymous function (empty name, no formals) that is never installed,
and `Functions` definitions are installed. -/
def interpStep (F : FOps) (fuel : Nat) (env : List Function) :
    ParseOutput → List Function × Except EvalErr Response
  | .Body op => (env, (evalFunc F env fuel op ⟨"", [], op⟩ []).map .Value)
  | .Functions fs => (installFuncs env fs, .ok .Ok)

/-- Dispatch a chain of parsed statements in textual order through the
interpreter, collecting each response. -/
def interpRunAll (F : FOps) (fuel : Nat) :
    List ParseOutput → List Function → List Function × List (Except EvalErr Response)
  | [], env => (env, [])
  | o :: os, env =>
    let (env1, r) := interpStep F fuel env o
    let (env2, rs) := interpRunAll F fuel os env1
    (env2, r :: rs)

/-- Tokenize, parse and interpret an input from the empty environment. -/
def interpProgram (F : FOps) (input : String) :
    Except String (List Function × List (Except EvalErr Response)) := do
  let (outs, _) ← parseProgram input
  pure (interpRunAll F 200 outs [])

mutual

/-- Denotation of `CodeGen::build_block` of `src/eval/llvm.rs`: each node
lowers to the corresponding IEEE double operation; `Arg(c)` reads the
parameter of the function currently being generated whose formal list contains
`c`; a call to a module function passes the argument values, each lowered
under the current generator. -/
def jitEvalOp (F : FOps) (env : List Function) :
    Nat → MathOp → Function → List ℚ → Except EvalErr ℚ
  | 0, _, _, _ => .error .fuelOut
  | fuel + 1, op, cur, params =>
    match op with
    | .Add l r => do
      pure ((← jitEvalOp F env fuel l cur params) + (← jitEvalOp F env fuel r cur params))
    | .Sub l r => do
      pure ((← jitEvalOp F env fuel l cur params) - (← jitEvalOp F env fuel r cur params))
    | .Mul l r => do
      pure ((← jitEvalOp F env fuel l cur params) * (← jitEvalOp F env fuel r cur params))
    | .Div l r => do
      pure ((← jitEvalOp F env fuel l cur params) / (← jitEvalOp F env fuel r cur params))
    | .Exp l r => do
      pure (F.pow (← jitEvalOp F env fuel l cur params) (← jitEvalOp F env fuel r cur params))
    | .Num x => pure x
    | .Neg x => do
      pure (-(← jitEvalOp F env fuel x cur params))
    | .Call name args =>
      match env.find? (fun x => x.name == name) with
      | some f => do
        let argv ← jitEvalArgs F env fuel args cur params
        jitEvalOp F env fuel f.body f argv
      | none =>
        if isIntrinsicName name then jitIntrinsic F env fuel name args cur params
        else .error (.panic "could not find function")
    | .Arg n =>
      match cur.args.findIdx? (fun a => a == n) with
      | some index =>
        match params.get? index with
        | some v => pure v
        | none => .error (.panic "Could not get paramter")
      | none => .error (.panic "could not find argument")

/-- Lowering of the actual arguments of a module-function call, left to
right, under the current generator. -/
def jitEvalArgs (F : FOps) (env : List Function) :
    Nat → List MathOp → Function → List ℚ → Except EvalErr (List ℚ)
  | 0, _, _, _ => .error .fuelOut
  | _ + 1, [], _, _ => pure []
  | fuel + 1, x :: xs, cur, params => do
    let v ← jitEvalOp F env fuel x cur params
    let vs ← jitEvalArgs F env fuel xs cur params
    pure (v :: vs)

/-- The JIT emitters of the standard intrinsics (`gen_jit` of
`src/eval/intrinsic/{sqrt,trig,sum}.rs`), with the same inverted arity
assertions as the interpreter side.  `sum` finds the last module function
whose name is not `_repl` and runs the emitted do-while loop. -/
def jitIntrinsic (F : FOps) (env : List Function) :
    Nat → String → List MathOp → Function → List ℚ → Except EvalErr ℚ
  | 0, _, _, _, _ => .error .fuelOut
  | fuel + 1, name, args, cur, params =>
    if name == "sqrt" then
      if args.length = 1 then .error (.panic "too many arguments passed into sqrt function")
      else
        match args.head? with
        | some a => do pure (F.sqrt (← jitEvalOp F env fuel a cur params))
        | none => .error (.panic "range end index out of bounds")
    else if name == "sin" then
      if args.length = 1 then .error (.panic "too many arguments passed into sin function")
      else
        match args.head? with
        | some a => do pure (F.sin (← jitEvalOp F env fuel a cur params))
        | none => .error (.panic "range end index out of bounds")
    else if name == "cos" then
      if args.length = 1 then .error (.panic "too many arguments passed into cos function")
      else
        match args.head? with
        | some a => do pure (F.cos (← jitEvalOp F env fuel a cur params))
        | none => .error (.panic "range end index out of bounds")
    else if name == "pi" then
      if args.isEmpty then .error (.panic "too many arguments passed into pi function")
      else pure F.pi
    else if name == "sum" then
      if args.length = 3 then .error (.panic "too many arguments passed into Sum function")
      else
        match args.get? 0, args.get? 1, args.get? 2 with
        | some a0, some a1, some a2 => do
          let start ← jitEvalOp F env fuel a0 cur params
          let stop ← jitEvalOp F env fuel a1 cur params
          let step ← jitEvalOp F env fuel a2 cur params
          match (env.filter (fun x => !(x.name == "_repl"))).getLast? with
          | none => .error (.panic "could not find last function for sum function")
          | some f =>
            if f.args.length = 1 then
              .error (.panic "last function has an incorrect number of arguments")
            else jitSumLoop F env fuel f stop step start 0
        | _, _, _ => .error (.panic "index out of bounds")
    else .error (.panic "unknown intrinsic")

/-- Runtime behaviour of the loop emitted by `Sum::gen_jit`: call the summand
at the counter, accumulate, advance, and branch back while the new counter is
at most `stop` (do-while, ordered compare). -/
def jitSumLoop (F : FOps) (env : List Function) :
    Nat → Function → ℚ → ℚ → ℚ → ℚ → Except EvalErr ℚ
  | 0, _, _, _, _, _ => .error .fuelOut
  | fuel + 1, f, stop, step, i, acc => do
    let v ← jitEvalOp F env fuel f.body f [i]
    let acc1 := acc + v
    let i1 := i + step
    if i1 ≤ stop then jitSumLoop F env fuel f stop step i1 acc1 else pure acc1

end

/-- `Jit::eval` on one `ParseOutput`: drop any prior `_repl` function, wrap a
`Body` as a `_repl` definition, install, and for a `Body` execute the last
function of the environment with no arguments. -/
def jitStep (F : FOps) (fuel : Nat) (env : List Function) :
    ParseOutput → List Function × Except EvalErr Response
  | out =>
    let env1 := env.filter (fun x => !(x.name == "_repl"))
    let p :=
      match out with
      | .Body op => ([Function.mk "_repl" [] op], true)
      | .Functions fs => (fs, false)
    let env2 := installFuncs env1 p.1
    if p.2 then
      match env2.getLast? with
      | some f => (env2, (jitEvalOp F env2 fuel f.body f []).map .Value)
      | none => (env2, .error (.panic "called unwrap on a None value"))
    else (env2, .ok .Ok)

/-- Dispatch a chain of parsed statements in textual order through the JIT,
collecting each response. -/
def jitRunAll (F : FOps) (fuel : Nat) :
    List ParseOutput → List Function → List Function × List (Except EvalErr Response)
  | [], env => (env, [])
  | o :: os, env =>
    let (env1, r) := jitStep F fuel env o
    let (env2, rs) := jitRunAll F fuel os env1
    (env2, r :: rs)

/-- Tokenize, parse and JIT-evaluate an input from the empty environment. -/
def jitProgram (F : FOps) (input : String) :
    Except String (List Function × List (Except EvalErr Response)) := do
  let (outs, _) ← parseProgram input
  pure (jitRunAll F 200 outs [])

/-- A concrete instantiation of the abstract float operations, used to witness
hypotheses about `pow` on small natural exponents. -/
def defaultFOps : FOps where
  pow := fun a b => a ^ b.num.toNat
  sqrt := fun _ => 0
  sin := fun _ => 0
  cos := fun _ => 0
  pi := 0

/-- Names of the functions in an environment, in order. -/
def funcNames (env : List Function) : List String :=
  env.map (fun f => f.name)

/-- Whether a parsed statement is a list of function definitions. -/
def isFunctions : ParseOutput → Bool
  | .Functions _ => true
  | .Body _ => false

/-- Interpreter function environment after a redefinition chain. -/
def envRedef : List Function :=
  [⟨"f", ['x'], .Add (.Arg 'x') (.Num 1)⟩]

/-- Interpreter function environment after defining `f(x,y)=x` and
`g(y,x)=f(x,y)`. -/
def envSwap : List Function :=
  [⟨"f", ['x', 'y'], .Arg 'x'⟩,
   ⟨"g", ['y', 'x'], .Call "f" [.Arg 'x', .Arg 'y']⟩]

/-- Interpreter function environment after defining `f(x)=x` and
`g(y)=f(y)`. -/
def envWrap : List Function :=
  [⟨"f", ['x'], .Arg 'x'⟩,
   ⟨"g", ['y'], .Call "f" [.Arg 'y']⟩]

theorem funcNames_installFunc (env : List Function) (f : Function) :
    funcNames (installFunc env f) =
      if f.name ∈ funcNames env then funcNames env else funcNames env ++ [f.name] := by
  induction env with
  | nil => simp [installFunc, funcNames]
  | cons g rest ih =>
    by_cases h : g.name = f.name
    · simp [installFunc, h, funcNames]
    · have hne : f.name ≠ g.name := fun hc => h hc.symm
      simp only [installFunc, if_neg h, funcNames, List.map_cons] at ih ⊢
      rw [ih]
      by_cases hm : f.name ∈ rest.map (fun f => f.name) <;>
        simp [hm, hne]

theorem nodup_funcNames_installFunc (env : List Function) (f : Function)
    (h : (funcNames env).Nodup) : (funcNames (installFunc env f)).Nodup := by
  rw [funcNames_installFunc]
  by_cases hm : f.name ∈ funcNames env
  · simpa [hm]
  · simpa [hm, List.nodup_append] using h

theorem nodup_funcNames_installFuncs (fs : List Function) (env : List Function)
    (h : (funcNames env).Nodup) : (funcNames (installFuncs env fs)).Nodup := by
  induction fs generalizing env with
  | nil => simpa [installFuncs]
  | cons f rest ih =>
    have : installFuncs env (f :: rest) = installFuncs (installFunc env f) rest := rfl
    rw [this]
    exact ih _ (nodup_funcNames_installFunc env f h)

theorem mem_installFunc (env : List Function) (f g : Function)
    (h : g ∈ installFunc env f) : g = f ∨ g ∈ env := by
  induction env with
  | nil => simpa [installFunc] using h
  | cons e rest ih =>
    by_cases he : e.name = f.name
    · simp only [installFunc, if_pos he] at h
      rcases List.mem_cons.mp h with h1 | h1
      · exact Or.inl h1
      · exact Or.inr (List.mem_cons_of_mem _ h1)
    · simp only [installFunc, if_neg he] at h
      rcases List.mem_cons.mp h with h1 | h1
      · exact Or.inr (h1 ▸ List.mem_cons_self _ _)
      · rcases ih h1 with h2 | h2
        · exact Or.inl h2
        · exact Or.inr (List.mem_cons_of_mem _ h2)

theorem mem_installFuncs (fs : List Function) (env : List Function) (g : Function)
    (h : g ∈ installFuncs env fs) : g ∈ env ∨ g ∈ fs := by
  induction fs generalizing env with
  | nil => exact Or.inl (by simpa [installFuncs] using h)
  | cons f rest ih =>
    have : installFuncs env (f :: rest) = installFuncs (installFunc env f) rest := rfl
    rw [this] at h
    rcases ih _ h with h1 | h1
    · rcases mem_installFunc env f g h1 with h2 | h2
      · exact Or.inr (h2 ▸ List.mem_cons_self _ _)
      · exact Or.inl h2
    · exact Or.inr (List.mem_cons_of_mem _ h1)

theorem parseFullFunc_functions (fuel : Nat) (toks : List MathToken) (out : ParseOutput)
    (r : List MathToken) (h : parseFullFunc fuel toks = .ok (some out, r)) :
    ∃ (c : Char) (args : List Char) (body : MathOp),
      out = ParseOutput.Functions [⟨c.toString, args, body⟩] := by
  match fuel with
  | 0 => simp [parseFullFunc] at h
  | fuel + 1 =>
    rcases toks with _ | ⟨t1, rest1⟩
    · simp [parseFullFunc, pure, Except.pure] at h
    cases t1 <;> try simp [parseFullFunc, pure, Except.pure] at h
    case Id q c =>
    rcases rest1 with _ | ⟨t2, rest⟩
    · simp [parseFullFunc, pure, Except.pure] at h
    cases t2 <;> try simp [parseFullFunc, pure, Except.pure] at h
    case Open q2 =>
    try simp only [parseFullFunc] at h
    cases hfa : parseFuncArgs rest with
    | none => rw [hfa] at h; simp [pure, Except.pure] at h
    | some v =>
      rw [hfa] at h
      obtain ⟨args, rest2⟩ := v
      rcases rest2 with _ | ⟨t3, rest4⟩
      · simp [pure, Except.pure] at h
      cases t3 <;> try simp [pure, Except.pure] at h
      case Close q3 =>
      rcases rest4 with _ | ⟨t4, rest3⟩
      · simp [pure, Except.pure] at h
      cases t4 <;> try simp [pure, Except.pure] at h
      case Eq q4 =>
      cases hpi : parseInnerFunc fuel rest3 with
      | error e => rw [hpi] at h; simp [bind, Except.bind] at h
      | ok v2 =>
        rw [hpi] at h
        simp only [bind, Except.bind, pure, Except.pure, Except.ok.injEq,
          Prod.mk.injEq, Option.some.injEq] at h
        exact ⟨c, args, v2.1, h.1.symm⟩

theorem parseChainSingle_shape (fuel : Nat) (toks : List MathToken) (out : ParseOutput)
    (r : List MathToken) (h : parseChainSingle fuel toks = .ok (out, r)) :
    (∃ op, out = ParseOutput.Body op) ∨
      ∃ (c : Char) (args : List Char) (body : MathOp),
        out = ParseOutput.Functions [⟨c.toString, args, body⟩] := by
  match fuel with
  | 0 => simp [parseChainSingle] at h
  | fuel + 1 =>
    simp only [parseChainSingle] at h
    cases hff : parseFullFunc fuel toks with
    | error e => rw [hff] at h; simp [bind, Except.bind] at h
    | ok v =>
      rw [hff] at h
      obtain ⟨res, r1⟩ := v
      cases res with
      | some o =>
        simp only [bind, Except.bind, pure, Except.pure, Except.ok.injEq,
          Prod.mk.injEq] at h
        exact Or.inr (h.1 ▸ parseFullFunc_functions fuel toks o r1 hff)
      | none =>
        simp only [bind, Except.bind] at h
        cases hpi : parseInnerFunc fuel toks with
        | error e => rw [hpi] at h; simp [bind, Except.bind] at h
        | ok w =>
          rw [hpi] at h
          simp only [bind, Except.bind, pure, Except.pure, Except.ok.injEq,
            Prod.mk.injEq] at h
          exact Or.inl ⟨w.1, h.1.symm⟩

theorem parseChainLoop_shape (fuel : Nat) (toks : List MathToken) (outs : List ParseOutput)
    (r : List MathToken) (h : parseChainLoop fuel toks = .ok (outs, r)) :
    ∀ out ∈ outs, (∃ op, out = ParseOutput.Body op) ∨
      ∃ (c : Char) (args : List Char) (body : MathOp),
        out = ParseOutput.Functions [⟨c.toString, args, body⟩] := by
  induction fuel generalizing toks outs r with
  | zero => simp [parseChainLoop] at h
  | succ fuel ih =>
    have hdone : ∀ (toks2 : List MathToken),
        parseChainLoop (fuel + 1) toks2 = .ok (outs, r) →
        (∀ (p : Nat) rest, toks2 ≠ .Chain p :: rest) →
        outs = [] := by
      intro toks2 h2 hnc
      rcases toks2 with _ | ⟨t, rest⟩
      · simp only [parseChainLoop, pure, Except.pure, Except.ok.injEq,
          Prod.mk.injEq] at h2
        exact h2.1.symm
      cases t <;>
        first
        | (exact absurd rfl (hnc _ _))
        | (simp only [parseChainLoop, pure, Except.pure, Except.ok.injEq,
            Prod.mk.injEq] at h2; exact h2.1.symm)
    rcases toks with _ | ⟨t, rest⟩
    · rw [hdone [] h (by intro p rest h2; exact List.noConfusion h2)]
      intro out hm
      simp at hm
    by_cases hc : ∃ p, t = MathToken.Chain p
    · obtain ⟨p, rfl⟩ := hc
      simp only [parseChainLoop] at h
      cases hcs : parseChainSingle fuel rest with
      | error e => rw [hcs] at h; simp [bind, Except.bind] at h
      | ok v =>
        rw [hcs] at h
        simp only [bind, Except.bind] at h
        obtain ⟨o, r1⟩ := v
        cases hcl : parseChainLoop fuel r1 with
        | error e => rw [hcl] at h; simp [bind, Except.bind] at h
        | ok w =>
          rw [hcl] at h
          simp only [bind, Except.bind, pure, Except.pure, Except.ok.injEq,
            Prod.mk.injEq] at h
          obtain ⟨os, r2⟩ := w
          intro out hm
          rw [← h.1] at hm
          rcases List.mem_cons.mp hm with h1 | h1
          · exact h1 ▸ parseChainSingle_shape fuel rest o r1 hcs
          · exact ih r1 os r2 hcl out h1
    · have : outs = [] := by
        refine hdone (t :: rest) h ?_
        intro p rest2 h2
        exact hc ⟨p, (List.cons.injEq _ _ _ _ ▸ h2 : _ ∧ _).1⟩
      rw [this]
      intro out hm
      simp at hm

theorem parse_shape (fuel : Nat) (toks : List MathToken) (outs : List ParseOutput)
    (r : List MathToken) (h : parse fuel toks = .ok (outs, r)) :
    ∀ out ∈ outs, (∃ op, out = ParseOutput.Body op) ∨
      ∃ (c : Char) (args : List Char) (body : MathOp),
        out = ParseOutput.Functions [⟨c.toString, args, body⟩] := by
  match fuel with
  | 0 => simp [parse] at h
  | fuel + 1 =>
    simp only [parse] at h
    cases hcs : parseChainSingle fuel toks with
    | error e => rw [hcs] at h; simp [bind, Except.bind] at h
    | ok v =>
      rw [hcs] at h
      simp only [bind, Except.bind] at h
      obtain ⟨o, r1⟩ := v
      cases hcl : parseChainLoop fuel r1 with
      | error e => rw [hcl] at h; simp [bind, Except.bind] at h
      | ok w =>
        rw [hcl] at h
        simp only [bind, Except.bind, pure, Except.pure, Except.ok.injEq,
          Prod.mk.injEq] at h
        obtain ⟨os, r2⟩ := w
        intro out hm
        rw [← h.1] at hm
        rcases List.mem_cons.mp hm with h1 | h1
        · exact h1 ▸ parseChainSingle_shape fuel toks o r1 hcs
        · exact parseChainLoop_shape fuel r1 os r2 hcl out h1

theorem char_toString_ne_repl (c : Char) : c.toString ≠ "_repl" := by
  intro h
  have hlen := congrArg String.length h
  simp [String.length, Char.toString] at hlen

theorem interpRunAll_repl_free (F : FOps) (efuel : Nat) (outs : List ParseOutput)
    (houts : ∀ out ∈ outs, (∃ op, out = ParseOutput.Body op) ∨
      ∃ (c : Char) (args : List Char) (body : MathOp),
        out = ParseOutput.Functions [⟨c.toString, args, body⟩]) :
    ∀ env : List Function, (∀ f ∈ env, f.name ≠ "_repl") →
      ∀ f ∈ (interpRunAll F efuel outs env).1, f.name ≠ "_repl" := by
  induction outs with
  | nil =>
    intro env henv
    simpa [interpRunAll] using henv
  | cons o os ih =>
    intro env henv
    have hos : ∀ out ∈ os, (∃ op, out = ParseOutput.Body op) ∨
        ∃ (c : Char) (args : List Char) (body : MathOp),
          out = ParseOutput.Functions [⟨c.toString, args, body⟩] :=
      fun out hm => houts out (List.mem_cons_of_mem _ hm)
    rcases houts o (List.mem_cons_self _ _) with ⟨op, rfl⟩ | ⟨c, args, body, rfl⟩
    · simpa [interpRunAll, interpStep] using ih hos env henv
    · have henv1 : ∀ f ∈ installFuncs env [⟨c.toString, args, body⟩], f.name ≠ "_repl" := by
        intro f hf
        rcases mem_installFuncs _ env f hf with h1 | h1
        · exact henv f h1
        · have : f = ⟨c.toString, args, body⟩ := by simpa using h1
          rw [this]
          exact char_toString_ne_repl c
      simpa [interpRunAll, interpStep] using ih hos _ henv1

/-- C1.  The two backends are not semantically equivalent: on the integer
valued program `f(x,y)=x & g(y,x)=f(x,y) & g(1,2)` the AST interpreter
produces `Value 1` while the JIT produces `Value 2`, because the interpreter
resolves argument expressions of a user call against the callee formal list
(the shadowing in `eval_func`) while the generated code resolves them against
the enclosing function.  Both results are exact integers, so the bit-identical
requirement of the claim fails. -/
theorem C1_backend_divergence : ∀ F : FOps,
    interpProgram F "f(x,y)=x&g(y,x)=f(x,y)&g(1,2)" =
      .ok (envSwap, [.ok .Ok, .ok .Ok, .ok (.Value 1)]) ∧
    jitProgram F "f(x,y)=x&g(y,x)=f(x,y)&g(1,2)" =
      .ok (envSwap ++ [⟨"_repl", [], .Call "g" [.Num 1, .Num 2]⟩],
        [.ok .Ok, .ok .Ok, .ok (.Value 2)]) ∧
    (1 : ℚ) ≠ 2 := by
  intro F
  refine ⟨?_, ?_, by norm_num⟩
  · with_unfolding_all rfl
  · with_unfolding_all rfl

/-- C2 counterexample.  `2^3^2` parses left-associatively as `(2^3)^2`, not as
`2^(3^2)`; under the concrete power operation (which agrees with `powf` on
these small natural powers: 2^3 = 8, 8^2 = 64) it evaluates to 64, not 512. -/
theorem C2_counterexample :
    parseProgram "2^3^2" =
      .ok ([.Body (.Exp (.Exp (.Num 2) (.Num 3)) (.Num 2))], []) ∧
    ([ParseOutput.Body (.Exp (.Exp (.Num 2) (.Num 3)) (.Num 2))]
        ≠ [ParseOutput.Body (.Exp (.Num 2) (.Exp (.Num 3) (.Num 2)))]) ∧
    interpProgram defaultFOps "2^3^2" = .ok ([], [.ok (.Value 64)]) ∧
    (64 : ℚ) ≠ 512 := by
  refine ⟨by with_unfolding_all rfl, ?_, by with_unfolding_all rfl, by norm_num⟩
  intro h
  simp at h

/-- C2 amended.  `parse_exp` folds `^` left to right: a chain of three numeric
primaries joined by `^` parses as `Exp{Exp{a,b},c}`, and `2^3^2` evaluates to
`pow(pow(2,3),2)`, which is 64 for any power operation with `pow(2,3) = 8` and
`pow(8,2) = 64`. -/
theorem C2_exp_left_assoc :
    (∀ (a b c : ℚ) (p1 p2 p3 p4 p5 fuel : Nat),
      parseExp (fuel + 4) [.Num p1 a, .Exp p2, .Num p3 b, .Exp p4, .Num p5 c] =
        .ok (.Exp (.Exp (.Num a) (.Num b)) (.Num c), [])) ∧
    (∀ F : FOps, F.pow 2 3 = 8 → F.pow 8 2 = 64 →
      interpProgram F "2^3^2" = .ok ([], [.ok (.Value 64)])) := by
  constructor
  · intro a b c p1 p2 p3 p4 p5 fuel
    rfl
  · intro F h1 h2
    have hrun : interpProgram F "2^3^2" =
        .ok ([], [.ok (.Value (F.pow (F.pow 2 3) 2))]) := by
      with_unfolding_all rfl
    rw [hrun, h1, h2]

/-- C2 witness: the amended evaluation instantiated at the concrete power
operation. -/
theorem C2_exp_left_assoc_witness :
    interpProgram defaultFOps "2^3^2" = .ok ([], [.ok (.Value 64)]) :=
  C2_exp_left_assoc.2 defaultFOps (by with_unfolding_all rfl)
    (by with_unfolding_all rfl)

/-- C3.  Calling an intrinsic with exactly its declared arity makes the
interpreter implementation fail its inverted argument-count assertion:
`sqrt(2)`, `sin(0)`, `cos(0)` and `pi()` all panic with the corresponding
"too many arguments" message instead of returning the mathematical value. -/
theorem C3_intrinsic_arity_assertion : ∀ F : FOps,
    interpProgram F "sqrt(2)" =
      .ok ([], [.error (.panic "too many arguments passed into sqrt function")]) ∧
    interpProgram F "sin(0)" =
      .ok ([], [.error (.panic "too many arguments passed into sin function")]) ∧
    interpProgram F "cos(0)" =
      .ok ([], [.error (.panic "too many arguments passed into cos function")]) ∧
    interpProgram F "pi()" =
      .ok ([], [.error (.panic "too many arguments passed into pi function")]) := by
  intro F
  refine ⟨?_, ?_, ?_, ?_⟩ <;> with_unfolding_all rfl

/-- C4.  A `sum(start, stop, step)` call with its declared three arguments
fails the inverted assertion `args.len() != 3` in `Sum::eval_interpreter`, so
`g(x)=x & sum(1,10,1)` panics instead of evaluating to 55. -/
theorem C4_sum_assertion : ∀ F : FOps,
    interpProgram F "g(x)=x&sum(1,10,1)" =
      .ok ([⟨"g", ['x'], .Arg 'x'⟩],
        [.ok .Ok, .error (.panic "too many arguments passed into Sum function")]) := by
  intro F
  with_unfolding_all rfl

/-- C5.  Argument expressions of a user call are not evaluated with the caller
as the frame owner: in `f(x)=x & g(y)=f(y) & g(5)` the interpreter resolves
the `Arg('y')` inside the call `f(y)` against the formal list of the callee
`f` (which has no `y`) and panics, while the JIT resolves it against the
enclosing `g` and returns 5. -/
theorem C5_callee_frame : ∀ F : FOps,
    interpProgram F "f(x)=x&g(y)=f(y)&g(5)" =
      .ok (envWrap, [.ok .Ok, .ok .Ok,
        .error (.panic
          "Argument specified in function body was not passed in function call")]) ∧
    jitProgram F "f(x)=x&g(y)=f(y)&g(5)" =
      .ok (envWrap ++ [⟨"_repl", [], .Call "g" [.Num 5]⟩],
        [.ok .Ok, .ok .Ok, .ok (.Value 5)]) := by
  intro F
  constructor <;> with_unfolding_all rfl

/-- C6 counterexample.  `2x` does not denote `2*x`: the function definition
`f(x)=2x` parses with body `Num 2` (the `x` is left unconsumed and silently
dropped), so the two-line session `f(x)=2x` then `f(5)` evaluates to 2, not
to `2*5`. -/
theorem C6_counterexample :
    parseProgram "f(x)=2x" =
      .ok ([.Functions [⟨"f", ['x'], .Num 2⟩]], [.Id 6 'x']) ∧
    parseProgram "f(5)" = .ok ([.Body (.Call "f" [.Num 5])], []) ∧
    interpRunAll defaultFOps 200
        [.Functions [⟨"f", ['x'], .Num 2⟩], .Body (.Call "f" [.Num 5])] [] =
      ([⟨"f", ['x'], .Num 2⟩], [.ok .Ok, .ok (.Value 2)]) ∧
    (2 : ℚ) ≠ 2 * 5 := by
  refine ⟨?_, ?_, ?_, by norm_num⟩ <;> with_unfolding_all rfl

/-- C6 amended.  The tokenizer emits a synthetic `Mul` before an `Open` only
when the previous token is a `Num`, so `2(3+4)` evaluates to 14 in both
backends, while `2x` parses as the bare number 2 with the `x` left
unconsumed. -/
theorem C6_implicit_mul : ∀ F : FOps,
    tokenize "2(3+4)" =
      .ok [.Num 0 2, .Mul 1, .Open 1, .Num 2 3, .Add 3, .Num 4 4, .Close 5] ∧
    interpProgram F "2(3+4)" = .ok ([], [.ok (.Value 14)]) ∧
    jitProgram F "2(3+4)" =
      .ok ([⟨"_repl", [], .Mul (.Num 2) (.Add (.Num 3) (.Num 4))⟩],
        [.ok (.Value 14)]) ∧
    parseProgram "2x" = .ok ([.Body (.Num 2)], [.Id 1 'x']) := by
  intro F
  refine ⟨?_, ?_, ?_, ?_⟩ <;> with_unfolding_all rfl

/-- C7.  Installing definitions keeps at most one function per name: a
definition whose name already exists replaces the first existing entry in
place and a new name is appended, so name lists without duplicates stay
without duplicates; after `f(x)=x & f(x)=x+1 & f(1)` both backends retain
exactly one `f` (whose body is `x+1`) and evaluate `f(1)` to 2. -/
theorem C7_redefinition :
    (∀ (env : List Function) (f : Function),
      (funcNames env).Nodup → (funcNames (installFunc env f)).Nodup) ∧
    (∀ (fs : List Function) (env : List Function),
      (funcNames env).Nodup → (funcNames (installFuncs env fs)).Nodup) ∧
    (∀ F : FOps, interpProgram F "f(x)=x&f(x)=x+1&f(1)" =
      .ok (envRedef, [.ok .Ok, .ok .Ok, .ok (.Value 2)])) ∧
    (∀ F : FOps, jitProgram F "f(x)=x&f(x)=x+1&f(1)" =
      .ok (envRedef ++ [⟨"_repl", [], .Call "f" [.Num 1]⟩],
        [.ok .Ok, .ok .Ok, .ok (.Value 2)])) := by
  refine ⟨nodup_funcNames_installFunc, nodup_funcNames_installFuncs, ?_, ?_⟩
  · intro F
    with_unfolding_all rfl
  · intro F
    with_unfolding_all rfl

/-- C7 witness: the no-duplicate invariant applied to the concrete
redefinition of `f`. -/
theorem C7_redefinition_witness :
    (funcNames (installFuncs []
      [⟨"f", ['x'], .Arg 'x'⟩, ⟨"f", ['x'], .Add (.Arg 'x') (.Num 1)⟩])).Nodup :=
  C7_redefinition.2.1 [⟨"f", ['x'], .Arg 'x'⟩, ⟨"f", ['x'], .Add (.Arg 'x') (.Num 1)⟩]
    [] (by simp [funcNames])

/-- C8 counterexample.  After a complete top-level statement parse, remaining
tokens that do not start with `&` are not an error: `1 2` parses successfully
to the single statement `1`, leaving the token `2` unconsumed. -/
theorem C8_counterexample :
    parseProgram "1 2" = .ok ([.Body (.Num 1)], [.Num 2 2]) ∧
    isNumTok (some (.Num 2 2)) = true := by
  constructor
  · with_unfolding_all rfl
  · rfl

/-- C8 amended.  When a complete statement parse leaves a queue that does not
start with `&`, `Parser::parse` returns successfully with exactly that
statement and the unconsumed queue. -/
theorem C8_trailing_tokens :
    ∀ (fuel : Nat) (toks : List MathToken) (out : ParseOutput) (r : List MathToken),
      parseChainSingle (fuel + 1) toks = .ok (out, r) →
      (∀ p : Nat, r.head? ≠ some (.Chain p)) →
      parse (fuel + 2) toks = .ok ([out], r) := by
  intro fuel toks out r h hnc
  have hloop : parseChainLoop (fuel + 1) r = .ok ([], r) := by
    rcases r with _ | ⟨t, rest⟩
    · rfl
    cases t <;> try rfl
    case Chain p =>
      have hfalse := hnc p
      simp at hfalse
  simp only [parse]
  rw [h]
  simp only [bind, Except.bind]
  rw [hloop]
  rfl

/-- C8 witness: the amended statement applied to the tokens of `1 2`. -/
theorem C8_trailing_tokens_witness :
    parse 81 [.Num 0 1, .Num 2 2] = .ok ([.Body (.Num 1)], [.Num 2 2]) :=
  C8_trailing_tokens 79 [.Num 0 1, .Num 2 2] (.Body (.Num 1)) [.Num 2 2]
    (by with_unfolding_all rfl) (by intro p; simp)

/-- C9 counterexample.  A statement with the two-character name `ab` does not
parse as a function definition: `ab(x)=x` parses as the expression body
`Call "ab" [Arg x]` (with `= x` left unconsumed), not as `Functions`. -/
theorem C9_counterexample :
    parseProgram "ab(x)=x" =
      .ok ([.Body (.Call "ab" [.Arg 'x'])], [.Eq 5, .Id 6 'x']) ∧
    isFunctions (.Body (.Call "ab" [.Arg 'x'])) = false := by
  constructor
  · with_unfolding_all rfl
  · rfl

/-- C9 amended.  A definition name is exactly one identifier character: for
any identifier characters `c` and `p`, the statement `c(p)=p` parses as
`Functions [Function]` with name `c`, and multi-parameter definitions with a
one-character name also parse (`f(x,y)=x`). -/
theorem C9_single_char_name :
    (∀ (c p : Char) (q0 q1 q2 q3 q4 q5 fuel : Nat),
      parse (fuel + 9) [.Id q0 c, .Open q1, .Id q2 p, .Close q3, .Eq q4, .Id q5 p] =
        .ok ([.Functions [⟨c.toString, [p], .Arg p⟩]], [])) ∧
    parseProgram "f(x,y)=x" =
      .ok ([.Functions [⟨"f", ['x', 'y'], .Arg 'x'⟩]], []) := by
  constructor
  · intro c p q0 q1 q2 q3 q4 q5 fuel
    rfl
  · with_unfolding_all rfl

/-- C10.  Evaluating a `Body` leaves the interpreter environment unchanged
(the anonymous wrapper is never installed); every function definition the
parser can produce has a one-character name, hence never the name `_repl`;
consequently an interpreter environment that starts `_repl`-free stays
`_repl`-free under any parsed statement chain. -/
theorem C10_repl_free :
    (∀ (F : FOps) (fuel : Nat) (env : List Function) (op : MathOp),
      (interpStep F fuel env (.Body op)).1 = env) ∧
    (∀ (fuel : Nat) (toks : List MathToken) (outs : List ParseOutput)
      (r : List MathToken), parse fuel toks = .ok (outs, r) →
      ∀ out ∈ outs, ∀ fs, out = ParseOutput.Functions fs →
      ∀ f ∈ fs, f.name ≠ "_repl") ∧
    (∀ (F : FOps) (efuel fuel : Nat) (toks : List MathToken)
      (outs : List ParseOutput) (r : List MathToken) (env : List Function),
      parse fuel toks = .ok (outs, r) →
      (∀ f ∈ env, f.name ≠ "_repl") →
      ∀ f ∈ (interpRunAll F efuel outs env).1, f.name ≠ "_repl") := by
  refine ⟨fun F fuel env op => rfl, ?_, ?_⟩
  · intro fuel toks outs r h out hm fs hfs f hf
    rcases parse_shape fuel toks outs r h out hm with ⟨op, rfl⟩ | ⟨c, args, body, heq⟩
    · exact ParseOutput.noConfusion hfs
    · rw [heq] at hfs
      have : fs = [⟨c.toString, args, body⟩] := by
        injection hfs.symm
      rw [this] at hf
      have : f = ⟨c.toString, args, body⟩ := by simpa using hf
      rw [this]
      exact char_toString_ne_repl c
  · intro F efuel fuel toks outs r env h henv
    exact interpRunAll_repl_free F efuel outs (parse_shape fuel toks outs r h) env henv

/-- C10 witness: the `_repl`-freedom invariant applied to the parse of
`f(x)=x` evaluated from the empty environment. -/
theorem C10_repl_free_witness :
    (Function.mk "f" ['x'] (.Arg 'x')).name ≠ "_repl" := by
  refine C10_repl_free.2.2 defaultFOps 200 112
    [.Id 0 'f', .Open 1, .Id 2 'x', .Close 3, .Eq 4, .Id 5 'x']
    [.Functions [⟨"f", ['x'], .Arg 'x'⟩]] [] [] ?_ ?_ _ ?_
  · with_unfolding_all rfl
  · simp
  · have : (interpRunAll defaultFOps 200
        [ParseOutput.Functions [⟨"f", ['x'], .Arg 'x'⟩]] []).1 =
        [⟨"f", ['x'], .Arg 'x'⟩] := by with_unfolding_all rfl
    rw [this]
    exact List.mem_singleton.mpr rfl

end MathJIT
